import Mathlib

/-
Verification of the item-synchronization server routes and the markdown
utility functions of this repository, as a shallow embedding in Lean 4.

Part 1 embeds the pure markdown utilities (escapeLinkUrl, unescapeLinkUrl,
titleFromBody).  Part 2 embeds the server-side item routes (api/items and
the web items routes) over an explicit server state; the model classes
(ItemModel, ChangeModel) are not part of the given sources, so their
operations are modelled from the specification where noted.
-/

namespace Joplin

/-! ## Markdown utilities (source: markdownUtils) -/

/-- JS global `String.replace` with a single-character pattern `p`:
every occurrence of `p` is replaced by `rep`, scanning left to right.
Embeds `url.replace(/\(/g, '%28')` and the other single-character replaces. -/
def replace1 (p : Char) (rep : List Char) : List Char → List Char
  | [] => []
  | c :: rest => if c = p then rep ++ replace1 p rep rest else c :: replace1 p rep rest

/-- JS global `String.replace` with the three-character pattern `['%', a, b]`:
leftmost, non-overlapping; after a match the scan continues after the match.
Embeds `url.replace(/%28/g, '(')` and the other percent-sequence replaces. -/
def replace3 (a b : Char) (rep : List Char) : List Char → List Char
  | [] => []
  | c :: rest =>
    if c = '%' then
      match rest with
      | x :: y :: t =>
        if x = a ∧ y = b then rep ++ replace3 a b rep t
        else c :: replace3 a b rep (x :: y :: t)
      | r => c :: replace3 a b rep r
    else c :: replace3 a b rep rest
termination_by s => s.length
decreasing_by all_goals simp_arith [List.length]

/-- `escapeLinkUrl` from the source: three sequential global replaces,
'(' to "%28", then ')' to "%29", then ' ' to "%20". -/
def escapeLinkUrl (url : String) : String :=
  let u1 := replace1 '(' ['%', '2', '8'] url.toList
  let u2 := replace1 ')' ['%', '2', '9'] u1
  let u3 := replace1 ' ' ['%', '2', '0'] u2
  String.mk u3

/-- `unescapeLinkUrl` from the source: three sequential global replaces,
"%28" to '(', then "%29" to ')', then "%20" to ' '. -/
def unescapeLinkUrl (url : String) : String :=
  let u1 := replace3 '2' '8' ['('] url.toList
  let u2 := replace3 '2' '9' [')'] u1
  let u3 := replace3 '2' '0' [' '] u2
  String.mk u3

/-- Whether `pat` occurs as a contiguous substring of the list. -/
def containsPat (pat : List Char) : List Char → Bool
  | [] => pat.isEmpty
  | c :: rest => pat.isPrefixOf (c :: rest) || containsPat pat rest

/-- Apply a character-to-token map and concatenate the tokens. -/
def expand (g : Char → List Char) : List Char → List Char
  | [] => []
  | c :: rest => g c ++ expand g rest

/-- The per-character effect of the full escape chain. -/
def encChar (c : Char) : List Char :=
  if c = '(' then ['%', '2', '8']
  else if c = ')' then ['%', '2', '9']
  else if c = ' ' then ['%', '2', '0']
  else [c]

/-- The per-character state after undoing "%28". -/
def encChar1 (c : Char) : List Char :=
  if c = '(' then ['(']
  else if c = ')' then ['%', '2', '9']
  else if c = ' ' then ['%', '2', '0']
  else [c]

/-- The per-character state after undoing "%28" and "%29". -/
def encChar2 (c : Char) : List Char :=
  if c = '(' then ['(']
  else if c = ')' then [')']
  else if c = ' ' then ['%', '2', '0']
  else [c]

/-! ### Lemmas about replace1, replace3 and expand -/

lemma expand_append (g : Char → List Char) (a b : List Char) :
    expand g (a ++ b) = expand g a ++ expand g b := by
  induction a with
  | nil => simp [expand]
  | cons c t ih => simp [expand, ih]

lemma expand_expand (g f : Char → List Char) (s : List Char) :
    expand g (expand f s) = expand (fun c => expand g (f c)) s := by
  induction s with
  | nil => simp [expand]
  | cons c t ih => simp [expand, expand_append, ih]

lemma expand_congr (f g : Char → List Char) (h : ∀ c, f c = g c) (s : List Char) :
    expand f s = expand g s := by
  induction s with
  | nil => rfl
  | cons c t ih => simp [expand, ih, h c]

lemma expand_singles (s : List Char) : expand (fun c => [c]) s = s := by
  induction s with
  | nil => rfl
  | cons c t ih => simp [expand, ih]

lemma replace1_eq_expand (p : Char) (rep : List Char) (s : List Char) :
    replace1 p rep s = expand (fun c => if c = p then rep else [c]) s := by
  induction s with
  | nil => rfl
  | cons c t ih =>
    by_cases hc : c = p
    · simp [replace1, expand, hc, ih]
    · simp [replace1, expand, hc, ih]

lemma replace3_nil (a b : Char) (rep : List Char) : replace3 a b rep [] = [] := by
  rw [replace3.eq_def]

lemma replace3_hit (a b : Char) (rep t : List Char) :
    replace3 a b rep ('%' :: a :: b :: t) = rep ++ replace3 a b rep t := by
  rw [replace3.eq_def]
  simp

lemma replace3_misshead (a b : Char) (rep : List Char) (c : Char) (t : List Char)
    (hc : c ≠ '%') : replace3 a b rep (c :: t) = c :: replace3 a b rep t := by
  rw [replace3.eq_def]
  match t with
  | [] => simp [hc]
  | [x] => simp [hc]
  | x :: y :: t2 => simp [hc]

lemma replace3_miss2 (a b : Char) (rep : List Char) (x y : Char) (t : List Char)
    (h : ¬(x = a ∧ y = b)) :
    replace3 a b rep ('%' :: x :: y :: t) = '%' :: replace3 a b rep (x :: y :: t) := by
  rw [replace3.eq_def]
  simp [h]

lemma replace3_short1 (a b : Char) (rep : List Char) :
    replace3 a b rep ['%'] = ['%'] := by
  rw [replace3.eq_def]
  simp [replace3_nil]

lemma replace3_short2 (a b : Char) (rep : List Char) (x : Char) :
    replace3 a b rep ['%', x] = '%' :: replace3 a b rep [x] := by
  rw [replace3.eq_def]
  simp

lemma containsPat_tail (pat : List Char) (c : Char) (rest : List Char)
    (h : containsPat pat (c :: rest) = false) : containsPat pat rest = false := by
  unfold containsPat at h
  exact (Bool.or_eq_false_iff.mp h).2

lemma containsPat_head_true (a b : Char) (r : List Char) :
    containsPat ['%', a, b] ('%' :: a :: b :: r) = true := by
  unfold containsPat
  simp [List.isPrefixOf]

lemma expand_ne_nil (g : Char → List Char)
    (hg : ∀ c, g c = [c] ∨ ∃ x y, g c = ['%', x, y] ∧ x ≠ '%' ∧ y ≠ '%')
    (c : Char) (rest : List Char) : expand g (c :: rest) ≠ [] := by
  rcases hg c with h | ⟨x, y, h, _, _⟩ <;> simp [expand, h]

lemma expand_eq_cons (g : Char → List Char)
    (hg : ∀ c, g c = [c] ∨ ∃ x y, g c = ['%', x, y] ∧ x ≠ '%' ∧ y ≠ '%')
    (s : List Char) (d : Char) (t : List Char)
    (h : expand g s = d :: t) (hd : d ≠ '%') :
    ∃ s2, s = d :: s2 ∧ t = expand g s2 := by
  cases s with
  | nil => simp [expand] at h
  | cons c s2 =>
    rcases hg c with h1 | ⟨x, y, h1, hx, hy⟩
    · rw [expand, h1] at h
      simp at h
      exact ⟨s2, by rw [h.1], h.2.symm⟩
    · rw [expand, h1] at h
      simp at h
      exact absurd h.1.symm hd

/-- Key step for the escape/unescape round trip: undoing the pattern
`['%', a, b]` on a token expansion rewrites exactly the tokens that are the
pattern, provided the original string does not itself contain the pattern. -/
lemma replace3_expand (a b : Char) (rep : List Char) (g g2 : Char → List Char)
    (ha : a ≠ '%') (hb : b ≠ '%')
    (hg : ∀ c, g c = [c] ∨ ∃ x y, g c = ['%', x, y] ∧ x ≠ '%' ∧ y ≠ '%')
    (hrel : ∀ c, (g c = ['%', a, b] ∧ g2 c = rep) ∨ (g2 c = g c ∧ g c ≠ ['%', a, b])) :
    ∀ u : List Char, containsPat ['%', a, b] u = false →
      replace3 a b rep (expand g u) = expand g2 u := by
  intro u
  induction u with
  | nil => intro _; simp [expand, replace3_nil]
  | cons c rest ih =>
    intro hsub
    have hsub2 : containsPat ['%', a, b] rest = false := containsPat_tail _ _ _ hsub
    have hrest := ih hsub2
    rcases hrel c with ⟨hgc, hg2c⟩ | ⟨hg2c, hne⟩
    · have hL : expand g (c :: rest) = '%' :: a :: b :: expand g rest := by
        rw [expand, hgc]; rfl
      have hR : expand g2 (c :: rest) = rep ++ expand g2 rest := by
        rw [expand, hg2c]
      rw [hL, hR, replace3_hit, hrest]
    · rcases hg c with hsingle | ⟨x, y, htrip, hx, hy⟩
      · by_cases hc : c = '%'
        · subst hc
          cases rest with
          | nil =>
            have hL : expand g ['%'] = ['%'] := by rw [expand, hsingle]; rfl
            have hR : expand g2 ['%'] = ['%'] := by rw [expand, hg2c, hsingle]; rfl
            rw [hL, hR, replace3_short1]
          | cons c2 rest2 =>
            rcases hE : expand g (c2 :: rest2) with _ | ⟨e, T⟩
            · exact absurd hE (expand_ne_nil g hg c2 rest2)
            · have hL : expand g ('%' :: c2 :: rest2) = '%' :: e :: T := by
                rw [expand, hsingle, hE]; rfl
              have hR : expand g2 ('%' :: c2 :: rest2) =
                  '%' :: expand g2 (c2 :: rest2) := by
                rw [expand, hg2c, hsingle]; rfl
              rw [hL, hR]
              cases T with
              | nil => rw [replace3_short2, ← hE, hrest]
              | cons y2 T2 =>
                by_cases hm : e = a ∧ y2 = b
                · obtain ⟨he, hy2⟩ := hm
                  rw [he, hy2] at hE
                  obtain ⟨s2, hs2, hT⟩ :=
                    expand_eq_cons g hg (c2 :: rest2) a (b :: T2) hE ha
                  obtain ⟨s3, hs3, _⟩ := expand_eq_cons g hg s2 b T2 hT.symm hb
                  rw [hs2, hs3, containsPat_head_true] at hsub
                  simp at hsub
                · rw [replace3_miss2 _ _ _ _ _ _ hm, ← hE, hrest]
        · have hL : expand g (c :: rest) = c :: expand g rest := by
            rw [expand, hsingle]; rfl
          have hR : expand g2 (c :: rest) = c :: expand g2 rest := by
            rw [expand, hg2c, hsingle]; rfl
          rw [hL, hR, replace3_misshead _ _ _ _ _ hc, hrest]
      · have hxy : ¬(x = a ∧ y = b) := by
          rintro ⟨rfl, rfl⟩
          exact hne htrip
        have hL : expand g (c :: rest) = '%' :: x :: y :: expand g rest := by
          rw [expand, htrip]; rfl
        have hR : expand g2 (c :: rest) = '%' :: x :: y :: expand g2 rest := by
          rw [expand, hg2c, htrip]; rfl
        rw [hL, hR, replace3_miss2 _ _ _ _ _ _ hxy, replace3_misshead _ _ _ _ _ hx,
          replace3_misshead _ _ _ _ _ hy, hrest]

lemma encChar_shape :
    ∀ c, encChar c = [c] ∨ ∃ x y, encChar c = ['%', x, y] ∧ x ≠ '%' ∧ y ≠ '%' := by
  intro c
  unfold encChar
  split_ifs <;> first
    | exact Or.inl rfl
    | exact Or.inr ⟨_, _, rfl, by decide, by decide⟩

lemma encChar1_shape :
    ∀ c, encChar1 c = [c] ∨ ∃ x y, encChar1 c = ['%', x, y] ∧ x ≠ '%' ∧ y ≠ '%' := by
  intro c
  unfold encChar1
  split_ifs with hp hq hr
  · exact Or.inl (by rw [hp])
  · exact Or.inr ⟨_, _, rfl, by decide, by decide⟩
  · exact Or.inr ⟨_, _, rfl, by decide, by decide⟩
  · exact Or.inl rfl

lemma encChar2_shape :
    ∀ c, encChar2 c = [c] ∨ ∃ x y, encChar2 c = ['%', x, y] ∧ x ≠ '%' ∧ y ≠ '%' := by
  intro c
  unfold encChar2
  split_ifs with hp hq hr
  · exact Or.inl (by rw [hp])
  · exact Or.inl (by rw [hq])
  · exact Or.inr ⟨_, _, rfl, by decide, by decide⟩
  · exact Or.inl rfl

lemma ne_of_length_one (c : Char) (x y z : Char) : [c] ≠ [x, y, z] := by
  intro h
  have hl := congrArg List.length h
  simp at hl

lemma encChar_rel1 :
    ∀ c, (encChar c = ['%', '2', '8'] ∧ encChar1 c = ['(']) ∨
      (encChar1 c = encChar c ∧ encChar c ≠ ['%', '2', '8']) := by
  intro c
  unfold encChar encChar1
  split_ifs
  · exact Or.inl ⟨rfl, rfl⟩
  · exact Or.inr ⟨rfl, by decide⟩
  · exact Or.inr ⟨rfl, by decide⟩
  · exact Or.inr ⟨rfl, ne_of_length_one c '%' '2' '8'⟩

lemma encChar_rel2 :
    ∀ c, (encChar1 c = ['%', '2', '9'] ∧ encChar2 c = [')']) ∨
      (encChar2 c = encChar1 c ∧ encChar1 c ≠ ['%', '2', '9']) := by
  intro c
  unfold encChar1 encChar2
  split_ifs
  · exact Or.inr ⟨rfl, by decide⟩
  · exact Or.inl ⟨rfl, rfl⟩
  · exact Or.inr ⟨rfl, by decide⟩
  · exact Or.inr ⟨rfl, ne_of_length_one c '%' '2' '9'⟩

lemma encChar_rel3 :
    ∀ c, (encChar2 c = ['%', '2', '0'] ∧ (fun d : Char => [d]) c = [' ']) ∨
      ((fun d : Char => [d]) c = encChar2 c ∧ encChar2 c ≠ ['%', '2', '0']) := by
  intro c
  unfold encChar2
  split_ifs with hp hq hr
  · exact Or.inr ⟨by rw [hp], by decide⟩
  · exact Or.inr ⟨by rw [hq], by decide⟩
  · exact Or.inl ⟨rfl, by rw [hr]⟩
  · exact Or.inr ⟨rfl, ne_of_length_one c '%' '2' '0'⟩

lemma escape_eq_expand (u : String) :
    escapeLinkUrl u = String.mk (expand encChar u.toList) := by
  show String.mk
      (replace1 ' ' ['%', '2', '0']
        (replace1 ')' ['%', '2', '9'] (replace1 '(' ['%', '2', '8'] u.toList))) =
    String.mk (expand encChar u.toList)
  simp only [replace1_eq_expand, expand_expand]
  congr 1
  apply expand_congr
  intro c
  by_cases h1 : c = '('
  · subst h1; decide
  · by_cases h2 : c = ')'
    · subst h2; decide
    · by_cases h3 : c = ' '
      · subst h3; decide
      · simp [expand, encChar, h1, h2, h3]

/-- C9: for every URL string that contains none of the substrings "%28",
"%29" and "%20", unescapeLinkUrl after escapeLinkUrl is the identity. -/
theorem C9_escape_unescape_roundtrip (u : String)
    (h1 : containsPat ['%', '2', '8'] u.toList = false)
    (h2 : containsPat ['%', '2', '9'] u.toList = false)
    (h3 : containsPat ['%', '2', '0'] u.toList = false) :
    unescapeLinkUrl (escapeLinkUrl u) = u := by
  rw [escape_eq_expand]
  show String.mk
      (replace3 '2' '0' [' ']
        (replace3 '2' '9' [')']
          (replace3 '2' '8' ['('] (String.mk (expand encChar u.toList)).toList))) = u
  have htl : (String.mk (expand encChar u.toList)).toList = expand encChar u.toList := rfl
  rw [htl,
    replace3_expand '2' '8' ['('] encChar encChar1 (by decide) (by decide)
      encChar_shape encChar_rel1 u.toList h1,
    replace3_expand '2' '9' [')'] encChar1 encChar2 (by decide) (by decide)
      encChar1_shape encChar_rel2 u.toList h2,
    replace3_expand '2' '0' [' '] encChar2 (fun c => [c]) (by decide) (by decide)
      encChar2_shape encChar_rel3 u.toList h3,
    expand_singles]
  rfl

theorem C9_escape_unescape_roundtrip_witness :
    containsPat ['%', '2', '8'] "a (b)".toList = false ∧
    containsPat ['%', '2', '9'] "a (b)".toList = false ∧
    containsPat ['%', '2', '0'] "a (b)".toList = false ∧
    unescapeLinkUrl (escapeLinkUrl "a (b)") = "a (b)" :=
  ⟨by decide, by decide, by decide,
    C9_escape_unescape_roundtrip "a (b)" (by decide) (by decide) (by decide)⟩

/-! ### titleFromBody (source: markdownUtils.titleFromBody) -/

/-- The characters removed by JS `String.trim` (space, tab, newline,
carriage return, vertical tab, form feed). -/
def isJsSpace (c : Char) : Bool :=
  c = ' ' || c = '\t' || c = '\n' || c = '\r' || c = Char.ofNat 11 || c = Char.ofNat 12

/-- JS `String.trim`: drop whitespace from both ends. -/
def trimJs (s : List Char) : List Char :=
  ((s.dropWhile isJsSpace).reverse.dropWhile isJsSpace).reverse

/-- JS `String.split('\n')`: always returns at least one segment. -/
def splitOnNl : List Char → List (List Char)
  | [] => [[]]
  | c :: rest =>
    let r := splitOnNl rest
    if c = '\n' then [] :: r
    else
      match r with
      | x :: xs => (c :: x) :: xs
      | [] => [[c]]

/-- `lines[0]` of the split. -/
def firstLine (s : List Char) : List Char := (splitOnNl s).headD []

/-- The character class of the anchored filter regex of titleFromBody,
`[# \n\t*`-]` (hash, space, newline, tab, asterisk, backtick, hyphen). -/
def titleFilterChar (c : Char) : Bool :=
  c = '#' || c = ' ' || c = '\n' || c = '\t' || c = '*' || c = Char.ofNat 96 || c = '-'

/-- `title.replace(filterRegex, '')`: the regex is anchored at the start, so
this strips the leading run of filter characters. -/
def stripTitleFilter (s : List Char) : List Char := s.dropWhile titleFilterChar

/-- Split at the first ']': returns the (possibly empty) run of non-']'
characters and the remainder after the ']'. Implements the lazy `[^\]]+?`
followed by `]` (minimal match; the class cannot cross ']'). -/
def scanBracketEnd : List Char → Option (List Char × List Char)
  | [] => none
  | c :: rest =>
    if c = ']' then some ([], rest)
    else
      match scanBracketEnd rest with
      | some (a, b) => some (c :: a, b)
      | none => none

/-- Scan for the first ')'; fails on a newline first, since `.` in the JS
regexes does not match newlines. -/
def scanClose : List Char → Option (List Char × List Char)
  | [] => none
  | c :: rest =>
    if c = ')' then some ([], rest)
    else if c = '\n' then none
    else
      match scanClose rest with
      | some (a, b) => some (c :: a, b)
      | none => none

/-- Implements the lazy `(.+?)\)`: at least one non-newline character, up to
the first ')' at index at least one. -/
def findClose : List Char → Option (List Char × List Char)
  | [] => none
  | c :: rest =>
    if c = '\n' then none
    else
      match scanClose rest with
      | some (a, b) => some (c :: a, b)
      | none => none

/-- Match `\[([^\]]+?)\]\(.+?\)` at the head of the list; returns the capture
group and the remainder after the match. -/
def tryMdLinkCore (s : List Char) : Option (List Char × List Char) :=
  match s with
  | c :: t1 =>
    if c = '[' then
      match scanBracketEnd t1 with
      | some (cap, t2) =>
        if cap = [] then none
        else
          match t2 with
          | d :: t3 =>
            if d = '(' then
              match findClose t3 with
              | some (_, t4) => some (cap, t4)
              | none => none
            else none
          | [] => none
      | none => none
    else none
  | [] => none

/-- Match `!?\[([^\]]+?)\]\(.+?\)` at the head: an optional '!' never matches
`\[`, so a leading '!' is consumed and the rest must match the bracket form. -/
def tryMdLink (s : List Char) : Option (List Char × List Char) :=
  match s with
  | c :: t => if c = '!' then tryMdLinkCore t else tryMdLinkCore (c :: t)
  | [] => none

/-- Match `\[\]\((.+?)\)` at the head; the capture is the URL. -/
def tryEmptyMdLinkCore (s : List Char) : Option (List Char × List Char) :=
  match s with
  | c1 :: c2 :: c3 :: t3 =>
    if c1 = '[' ∧ c2 = ']' ∧ c3 = '(' then
      match findClose t3 with
      | some (cap, t4) => some (cap, t4)
      | none => none
    else none
  | _ => none

/-- Match `!?\[\]\((.+?)\)` at the head. -/
def tryEmptyMdLink (s : List Char) : Option (List Char × List Char) :=
  match s with
  | c :: t => if c = '!' then tryEmptyMdLinkCore t else tryEmptyMdLinkCore (c :: t)
  | [] => none

lemma scanBracketEnd_len :
    ∀ (s a b : List Char), scanBracketEnd s = some (a, b) → b.length < s.length := by
  intro s
  induction s with
  | nil => intro a b h; simp [scanBracketEnd] at h
  | cons c rest ih =>
    intro a b h
    by_cases hc : c = ']'
    · simp [scanBracketEnd, hc] at h
      obtain ⟨h1, h2⟩ := h
      subst h2
      simp
    · rcases hr : scanBracketEnd rest with _ | ⟨a2, b2⟩
      · simp [scanBracketEnd, hc, hr] at h
      · simp [scanBracketEnd, hc, hr] at h
        obtain ⟨h1, h2⟩ := h
        subst h2
        have := ih a2 b2 hr
        simp
        omega

lemma scanClose_len :
    ∀ (s a b : List Char), scanClose s = some (a, b) → b.length < s.length := by
  intro s
  induction s with
  | nil => intro a b h; simp [scanClose] at h
  | cons c rest ih =>
    intro a b h
    by_cases hc : c = ')'
    · simp [scanClose, hc] at h
      obtain ⟨h1, h2⟩ := h
      subst h2
      simp
    · by_cases hn : c = '\n'
      · simp [scanClose, hc, hn] at h
      · rcases hr : scanClose rest with _ | ⟨a2, b2⟩
        · simp [scanClose, hc, hn, hr] at h
        · simp [scanClose, hc, hn, hr] at h
          obtain ⟨h1, h2⟩ := h
          subst h2
          have := ih a2 b2 hr
          simp
          omega

lemma findClose_len :
    ∀ (s a b : List Char), findClose s = some (a, b) → b.length < s.length := by
  intro s a b h
  cases s with
  | nil => simp [findClose] at h
  | cons c rest =>
    by_cases hn : c = '\n'
    · simp [findClose, hn] at h
    · rcases hr : scanClose rest with _ | ⟨a2, b2⟩
      · simp [findClose, hn, hr] at h
      · simp [findClose, hn, hr] at h
        obtain ⟨h1, h2⟩ := h
        subst h2
        have := scanClose_len rest a2 b2 hr
        simp
        omega

lemma tryMdLinkCore_len :
    ∀ (s cap rest : List Char), tryMdLinkCore s = some (cap, rest) → rest.length < s.length := by
  intro s cap rest h
  cases s with
  | nil => simp [tryMdLinkCore] at h
  | cons c t1 =>
    by_cases hc : c = '['
    · rcases hb : scanBracketEnd t1 with _ | ⟨cap1, t2⟩
      · simp [tryMdLinkCore, hc, hb] at h
      · by_cases hcap : cap1 = []
        · simp [tryMdLinkCore, hc, hb, hcap] at h
        · cases t2 with
          | nil => simp [tryMdLinkCore, hc, hb, hcap] at h
          | cons d t3 =>
            by_cases hd : d = '('
            · rcases hf : findClose t3 with _ | ⟨cap2, t4⟩
              · simp [tryMdLinkCore, hc, hb, hcap, hd, hf] at h
              · simp [tryMdLinkCore, hc, hb, hcap, hd, hf] at h
                obtain ⟨h1, h2⟩ := h
                subst h2
                have l1 := findClose_len t3 cap2 t4 hf
                have l2 := scanBracketEnd_len t1 cap1 (d :: t3) hb
                simp at l2
                simp
                omega
            · simp [tryMdLinkCore, hc, hb, hcap, hd] at h
    · simp [tryMdLinkCore, hc] at h

lemma tryMdLink_len :
    ∀ (s cap rest : List Char), tryMdLink s = some (cap, rest) → rest.length < s.length := by
  intro s cap rest h
  cases s with
  | nil => simp [tryMdLink] at h
  | cons c t =>
    by_cases hc : c = '!'
    · simp [tryMdLink, hc] at h
      have := tryMdLinkCore_len t cap rest h
      simp
      omega
    · simp [tryMdLink, hc] at h
      exact tryMdLinkCore_len (c :: t) cap rest h

lemma tryEmptyMdLinkCore_len :
    ∀ (s cap rest : List Char),
      tryEmptyMdLinkCore s = some (cap, rest) → rest.length < s.length := by
  intro s cap rest h
  match s with
  | [] => simp [tryEmptyMdLinkCore] at h
  | [c1] => simp [tryEmptyMdLinkCore] at h
  | [c1, c2] => simp [tryEmptyMdLinkCore] at h
  | c1 :: c2 :: c3 :: t3 =>
    by_cases hc : c1 = '[' ∧ c2 = ']' ∧ c3 = '('
    · rcases hf : findClose t3 with _ | ⟨cap2, t4⟩
      · simp [tryEmptyMdLinkCore, hc, hf] at h
      · simp [tryEmptyMdLinkCore, hc, hf] at h
        obtain ⟨h1, h2⟩ := h
        subst h2
        have := findClose_len t3 cap2 t4 hf
        simp
        omega
    · simp [tryEmptyMdLinkCore, hc] at h

lemma tryEmptyMdLink_len :
    ∀ (s cap rest : List Char),
      tryEmptyMdLink s = some (cap, rest) → rest.length < s.length := by
  intro s cap rest h
  cases s with
  | nil => simp [tryEmptyMdLink] at h
  | cons c t =>
    by_cases hc : c = '!'
    · simp [tryEmptyMdLink, hc] at h
      have := tryEmptyMdLinkCore_len t cap rest h
      simp
      omega
    · simp [tryEmptyMdLink, hc] at h
      exact tryEmptyMdLinkCore_len (c :: t) cap rest h

/-- JS `title.replace(mdLinkRegex, '$1')`: global scan, each match replaced
by its capture group, the scan continuing after the match. -/
def replaceMdLinks : List Char → List Char
  | [] => []
  | c :: rest =>
    match h : tryMdLink (c :: rest) with
    | some (cap, after) => cap ++ replaceMdLinks after
    | none => c :: replaceMdLinks rest
termination_by s => s.length
decreasing_by
  · exact tryMdLink_len _ _ _ h
  · simp

/-- JS `title.replace(emptyMdLinkRegex, '$1')`. -/
def replaceEmptyMdLinks : List Char → List Char
  | [] => []
  | c :: rest =>
    match h : tryEmptyMdLink (c :: rest) with
    | some (cap, after) => cap ++ replaceEmptyMdLinks after
    | none => c :: replaceEmptyMdLinks rest
termination_by s => s.length
decreasing_by
  · exact tryEmptyMdLink_len _ _ _ h
  · simp

/-- `titleFromBody` from the source: empty body gives '', otherwise the body
is trimmed, split on newlines, the first line trimmed, the anchored filter
prefix stripped, markdown links replaced by their text (then empty links by
their URL), and the result truncated to 80 characters. -/
def titleFromBody (body : String) : String :=
  if body = "" then ""
  else
    let title := trimJs (firstLine (trimJs body.toList))
    String.mk (List.take 80 (replaceEmptyMdLinks (replaceMdLinks (stripTitleFilter title))))

lemma replaceMdLinks_nil : replaceMdLinks [] = [] := by
  rw [replaceMdLinks]

lemma replaceEmptyMdLinks_nil : replaceEmptyMdLinks [] = [] := by
  rw [replaceEmptyMdLinks]

lemma titleFromBody_empty : titleFromBody "" = "" := by
  simp [titleFromBody]

lemma titleFromBody_of_firstLine_nil (b : String)
    (h : firstLine (trimJs b.toList) = []) : titleFromBody b = "" := by
  by_cases hb : b = ""
  · rw [hb, titleFromBody_empty]
  · show (if b = "" then ""
      else String.mk (List.take 80 (replaceEmptyMdLinks (replaceMdLinks
        (stripTitleFilter (trimJs (firstLine (trimJs b.toList)))))))) = ""
    rw [if_neg hb, h]
    have h0 : stripTitleFilter (trimJs []) = [] := rfl
    rw [h0, replaceMdLinks_nil, replaceEmptyMdLinks_nil]
    rfl

/-- C10: titleFromBody always returns at most 80 characters, returns the
empty string on the empty body, and depends only on the first line of the
trimmed body. -/
theorem C10_titleFromBody_spec :
    (∀ body : String, (titleFromBody body).length ≤ 80) ∧
    titleFromBody "" = "" ∧
    (∀ b1 b2 : String,
      firstLine (trimJs b1.toList) = firstLine (trimJs b2.toList) →
      titleFromBody b1 = titleFromBody b2) := by
  refine ⟨?_, titleFromBody_empty, ?_⟩
  · intro body
    by_cases hb : body = ""
    · rw [hb, titleFromBody_empty]
      decide
    · show (if body = "" then ""
        else String.mk (List.take 80 (replaceEmptyMdLinks (replaceMdLinks
          (stripTitleFilter (trimJs (firstLine (trimJs body.toList)))))))).length ≤ 80
      rw [if_neg hb]
      have hlen : (String.mk (List.take 80 (replaceEmptyMdLinks (replaceMdLinks
          (stripTitleFilter (trimJs (firstLine (trimJs body.toList)))))))).length =
          (List.take 80 (replaceEmptyMdLinks (replaceMdLinks
            (stripTitleFilter (trimJs (firstLine (trimJs body.toList))))))).length := rfl
      rw [hlen, List.length_take]
      omega
  · intro b1 b2 h
    by_cases hb1 : b1 = ""
    · rw [hb1] at h ⊢
      have h2 : firstLine (trimJs b2.toList) = [] :=
        h.symm.trans (by decide)
      rw [titleFromBody_of_firstLine_nil b2 h2, titleFromBody_empty]
    · by_cases hb2 : b2 = ""
      · rw [hb2] at h ⊢
        have h1 : firstLine (trimJs b1.toList) = [] :=
          h.trans (by decide)
        rw [titleFromBody_of_firstLine_nil b1 h1, titleFromBody_empty]
      · show (if b1 = "" then ""
          else String.mk (List.take 80 (replaceEmptyMdLinks (replaceMdLinks
            (stripTitleFilter (trimJs (firstLine (trimJs b1.toList)))))))) =
          (if b2 = "" then ""
          else String.mk (List.take 80 (replaceEmptyMdLinks (replaceMdLinks
            (stripTitleFilter (trimJs (firstLine (trimJs b2.toList))))))))
        rw [if_neg hb1, if_neg hb2, h]

theorem C10_titleFromBody_spec_witness :
    firstLine (trimJs "a b".toList) = firstLine (trimJs "a b\nc".toList) ∧
    titleFromBody "a b" = titleFromBody "a b\nc" :=
  ⟨by decide, C10_titleFromBody_spec.2.2 "a b" "a b\nc" (by decide)⟩

/-! ## Server model: items, changes and the item routes

The route handlers below are translated from the given sources
(routes/api items and routes/web items).  The model classes they call
(ItemModel, ChangeModel) are not part of the given sources; each such
operation is modelled from the specification and marked as such. -/

/-- The error taxonomy of the routes (spec section 7). -/
inductive Err where
  | NotFound
  | MethodNotAllowed
  | PermissionDenied
  | StorageError
deriving DecidableEq, Repr

/-- An item row: tenant-scoped named unit of content. -/
structure Item where
  id : Nat
  name : String
  owner_id : Nat
  mime_type : String
  content : List Nat
  created_time : Nat
  updated_time : Nat
  jop_share_id : Option String
deriving DecidableEq, Repr

/-- The operation recorded by a Change. -/
inductive ChangeType where
  | create
  | update
  | delete
deriving DecidableEq, Repr

/-- A change-log record. -/
structure Change where
  id : Nat
  item_id : Nat
  item_name : String
  ctype : ChangeType
  owner_id : Nat
deriving DecidableEq, Repr

/-- The durable server state behind the routes. -/
structure ServerState where
  items : List Item
  changes : List Change
  nextId : Nat
  nextChangeId : Nat
deriving DecidableEq, Repr

/-- The calling tenant (ctx.owner). -/
structure User where
  id : Nat
deriving DecidableEq, Repr

/-- AclAction from BaseModel. -/
inductive AclAction where
  | Create
  | Read
  | Update
  | Delete
deriving DecidableEq, Repr

/-- The target of an access-control check: a full item for deletes, or a
record bearing only a share id for the PUT content route. -/
inductive AclTarget where
  | itemTarget (it : Item)
  | shareTarget (sid : String)
deriving DecidableEq, Repr

/-- Observable model calls made by a handler, in order. -/
inductive Ev where
  | CheckedIfAllowed (a : AclAction)
  | DeletedForUser (itemId : Nat)
  | DeletedAll (ownerId : Nat)
  | SavedFromRawContent (name : String)
  | RemovedTempFile (p : String)
deriving DecidableEq, Repr

/-- ctx.query as an association list; lookup of a query parameter. -/
def lookupQuery (q : List (String × String)) (k : String) : Option String :=
  (q.find? (fun e => e.1 == k)).map (fun e => e.2)

/-- Modelled from the spec: ItemModel.pathToName is not in the given
sources and the spec fixes no concrete transformation from a path id to an
item name; no claim depends on the transformation, so it is the identity. -/
def pathToName (pathId : String) : String := pathId

/-- Modelled from the spec: ItemModel.loadByName is not in the given
sources; resolve(owner, path) is deterministic, case-sensitive, tenant-scoped
resolution that never searches across tenants. -/
def loadByName (userId : Nat) (name : String) (st : ServerState) : Option Item :=
  st.items.find? (fun i => i.owner_id == userId && i.name == name)

/-- `itemFromPath` from the source, with mustExists true as at every call
site: resolve the path name inside the caller's namespace or fail NotFound. -/
def itemFromPath (userId : Nat) (st : ServerState) (pathId : String) : Except Err Item :=
  match loadByName userId (pathToName pathId) st with
  | some item => Except.ok item
  | none => Except.error Err.NotFound

/-- Modelled from the spec: ItemModel.toApiOutput is not in the given
sources; GET api/items/:id returns item metadata without content. -/
def toApiOutput (i : Item) : Item := { i with content := [] }

/-- Modelled from the spec: ItemModel.serializedContent is not in the given
sources; serialized_content(item_id) streams the raw payload by item id. -/
def serializedContent (itemId : Nat) (st : ServerState) : List Nat :=
  match st.items.find? (fun i => i.id == itemId) with
  | some i => i.content
  | none => []

/-- Modelled from the spec: ItemModel.loadWithContent is not in the given
sources; the web content route loads the item with its content by the raw
path id, with no owner in its signature and hence no owner scoping. -/
def loadWithContent (itemId : Nat) (st : ServerState) : Option Item :=
  st.items.find? (fun i => i.id == itemId)

/-- Modelled from the spec: ItemModel.children is not in the given sources;
children(owner, parent_path, pagination) lists descendants by prefix match
on the path, scoped to the owner, bounded by the pagination limit. -/
def children (userId : Nat) (parentName : String) (lim : Nat) (st : ServerState) : List Item :=
  List.take lim (st.items.filter (fun i => i.owner_id == userId && parentName.isPrefixOf i.name))

/-- Modelled from the spec: the Access Control Evaluator
check(actor, action, target), taken as an abstract decision function `acl`;
a deny surfaces as PermissionDenied, as BaseModel.checkIfAllowed throws. -/
def checkIfAllowed (acl : User → AclAction → AclTarget → Bool) (u : User)
    (a : AclAction) (t : AclTarget) : Except Err Unit :=
  if acl u a t then Except.ok () else Except.error Err.PermissionDenied

/-- Modelled from the spec: ItemModel.deleteForUser is not in the given
sources; delete(owner, item) removes the item and appends exactly one
delete Change in the same transaction. -/
def deleteForUser (ownerId : Nat) (item : Item) (st : ServerState) : ServerState :=
  { st with
    items := st.items.filter (fun i => !(i.id == item.id)),
    changes := st.changes ++ [⟨st.nextChangeId, item.id, item.name, ChangeType.delete, ownerId⟩],
    nextChangeId := st.nextChangeId + 1 }

/-- Modelled from the spec: ItemModel.deleteAll is not in the given sources;
the full wipe deletes all of the calling tenant's items and no others. -/
def deleteAll (ownerId : Nat) (st : ServerState) : ServerState :=
  { st with items := st.items.filter (fun i => !(i.owner_id == ownerId)) }

/-- ItemSaveOption from the source: the PUT route optionally sets shareId. -/
structure ItemSaveOption where
  shareId : Option String
deriving DecidableEq, Repr

/-- The replacement row of create_or_replace: content and metadata
overwritten from the arguments, updated_time bumped; the share id is set
from the options when present and kept otherwise. -/
def updItem (it : Item) (buffer : List Nat) (opts : ItemSaveOption) (time : Nat) : Item :=
  { it with
    content := buffer,
    updated_time := time,
    jop_share_id := match opts.shareId with | some s => some s | none => it.jop_share_id }

/-- Modelled from the spec: ItemModel.saveFromRawContent is not in the given
sources; create_or_replace(owner, path, bytes, options) replaces the item
with that path when it exists for the tenant (content and metadata
overwritten, updated_time bumped) and creates it otherwise, appending one
Change in the same transaction. -/
def saveFromRawContent (owner : User) (name : String) (buffer : List Nat)
    (opts : ItemSaveOption) (time : Nat) (st : ServerState) : Item × ServerState :=
  match st.items.find? (fun i => i.owner_id == owner.id && i.name == name) with
  | some it =>
    (updItem it buffer opts time,
      { st with
        items := st.items.map (fun j => if j.id == it.id then updItem it buffer opts time else j),
        changes := st.changes ++ [⟨st.nextChangeId, it.id, name, ChangeType.update, owner.id⟩],
        nextChangeId := st.nextChangeId + 1 })
  | none =>
    let newIt : Item := ⟨st.nextId, name, owner.id, "", buffer, time, time, opts.shareId⟩
    (newIt,
      { st with
        items := st.items ++ [newIt],
        nextId := st.nextId + 1,
        changes := st.changes ++ [⟨st.nextChangeId, st.nextId, name, ChangeType.create, owner.id⟩],
        nextChangeId := st.nextChangeId + 1 })

/-- Modelled from the spec: change-log compaction (spec 4.3) coalesces the
history of an item into its terminal record; a Change survives iff no later
Change exists for the same item. -/
def survivingChanges : List Change → List Change
  | [] => []
  | c :: rest =>
    if rest.any (fun d => d.item_id == c.item_id) then survivingChanges rest
    else c :: survivingChanges rest

/-! ### Route handlers (source: routes/api items and routes/web items) -/

/-- GET api/items/:id — resolve in the caller's namespace and return the
item metadata. -/
def getItemHandler (ownerId : Nat) (st : ServerState) (pathId : String) : Except Err Item :=
  match itemFromPath ownerId st pathId with
  | Except.ok item => Except.ok (toApiOutput item)
  | Except.error e => Except.error e

/-- GET api/items/:id/content — resolve in the caller's namespace and
respond with the serialized content. -/
def getApiContentHandler (ownerId : Nat) (st : ServerState) (pathId : String) :
    Except Err (Item × List Nat) :=
  match itemFromPath ownerId st pathId with
  | Except.ok item => Except.ok (item, serializedContent item.id st)
  | Except.error e => Except.error e

/-- GET items/:id/content (web, user-content route) — loads the item with
content by the raw path id and responds with it; the handler makes no
access-control call (its event trace is empty) and never reads ctx.owner. -/
def webContentHandler (_actorId : Nat) (st : ServerState) (itemId : Nat) :
    Except Err (Item × List Nat) × List Ev :=
  match loadWithContent itemId st with
  | none => (Except.error Err.NotFound, [])
  | some item => (Except.ok (item, item.content), [])

/-- DELETE api/items/:id — for path id 'root' or 'root:/:' the whole-tenant
wipe, allowed only when env is 'dev', otherwise MethodNotAllowed; for other
path ids resolve, check Delete permission, delete; a NotFound thrown inside
is swallowed as a no-op. -/
def deleteItemHandler (acl : User → AclAction → AclTarget → Bool) (env : String)
    (owner : User) (st : ServerState) (pathId : String) :
    Except Err Unit × ServerState × List Ev :=
  let inner : Except Err Unit × ServerState × List Ev :=
    if pathId = "root" ∨ pathId = "root:/:" then
      if env ≠ "dev" then (Except.error Err.MethodNotAllowed, st, [])
      else (Except.ok (), deleteAll owner.id st, [Ev.DeletedAll owner.id])
    else
      match itemFromPath owner.id st pathId with
      | Except.error e => (Except.error e, st, [])
      | Except.ok item =>
        match checkIfAllowed acl owner AclAction.Delete (AclTarget.itemTarget item) with
        | Except.error e => (Except.error e, st, [Ev.CheckedIfAllowed AclAction.Delete])
        | Except.ok _ =>
          (Except.ok (), deleteForUser owner.id item st,
            [Ev.CheckedIfAllowed AclAction.Delete, Ev.DeletedForUser item.id])
  match inner with
  | (Except.error Err.NotFound, st2, ev) => (Except.ok (), st2, ev)
  | r => r

/-- The multipart body of the PUT content route: the optional uploaded
temporary file path. -/
structure ParsedBody where
  file : Option String
deriving DecidableEq, Repr

/-- PUT api/items/:id/content — reads the uploaded file into a buffer (the
read outcome is `readResult`), optionally performs the share-id Create
check when the share_id query parameter is truthy, saves the raw content
(`saveOk` is whether the storage write succeeds), and in all cases finally
removes the temporary file when one was uploaded. -/
def putItemContentHandler (acl : User → AclAction → AclTarget → Bool) (owner : User)
    (pathId : String) (query : List (String × String)) (body : ParsedBody)
    (readResult : Except Err (List Nat)) (saveOk : Bool) (time : Nat)
    (st : ServerState) : Except Err Item × ServerState × List Ev :=
  let name := pathToName pathId
  let filePath := body.file
  let doSave : ItemSaveOption → List Nat → List Ev → Except Err Item × ServerState × List Ev :=
    fun opts buffer ev =>
      if saveOk then
        let r := saveFromRawContent owner name buffer opts time st
        (Except.ok (toApiOutput r.1), r.2, ev ++ [Ev.SavedFromRawContent name])
      else (Except.error Err.StorageError, st, ev)
  let inner : Except Err Item × ServerState × List Ev :=
    match (match filePath with | some _ => readResult | none => Except.ok []) with
    | Except.error e => (Except.error e, st, [])
    | Except.ok buffer =>
      match lookupQuery query "share_id" with
      | some sid =>
        if sid ≠ "" then
          match checkIfAllowed acl owner AclAction.Create (AclTarget.shareTarget sid) with
          | Except.error e => (Except.error e, st, [Ev.CheckedIfAllowed AclAction.Create])
          | Except.ok _ =>
            doSave ⟨some sid⟩ buffer [Ev.CheckedIfAllowed AclAction.Create]
        else doSave ⟨none⟩ buffer []
      | none => doSave ⟨none⟩ buffer []
  let fin : List Ev := match filePath with
    | some p => [Ev.RemovedTempFile p]
    | none => []
  (inner.1, inner.2.1, inner.2.2 ++ fin)

/-- Delta pagination parsed from the query.  Modelled from the spec:
requestDeltaPagination is not in the given sources; it derives the cursor
pagination from the query alone. -/
structure ChangePagination where
  limit : Nat
  cursor : Option String
deriving DecidableEq, Repr

/-- Modelled from the spec: the cursor pagination derived from the query. -/
def requestDeltaPagination (query : List (String × String)) : ChangePagination :=
  { limit := match (lookupQuery query "limit").bind (fun s => s.toNat?) with
      | some n => n
      | none => 100,
    cursor := lookupQuery query "cursor" }

/-- GET api/items/:id/delta — the handler ignores the :id path segment and
calls change().delta with ctx.owner.id and the query pagination; `delta`
stands for the external ChangeModel.delta. -/
def deltaHandler {α : Type} (delta : Nat → ChangePagination → α) (_pathId : String)
    (ownerId : Nat) (query : List (String × String)) : α :=
  delta ownerId (requestDeltaPagination query)

/-- GET api/items/:id/children — list the children of the resolved parent
name, scoped to the caller. -/
def childrenHandler (ownerId : Nat) (st : ServerState) (pathId : String) (lim : Nat) :
    List Item :=
  children ownerId (pathToName pathId) lim st

/-! ### Claim theorems -/

lemma loadByName_owner (userId : Nat) (name : String) (st : ServerState) (it : Item)
    (h : loadByName userId name st = some it) : it.owner_id = userId := by
  unfold loadByName at h
  have hp := List.find?_some h
  simp at hp
  exact hp.1

lemma itemFromPath_owner (userId : Nat) (st : ServerState) (pathId : String) (it : Item)
    (h : itemFromPath userId st pathId = Except.ok it) : it.owner_id = userId := by
  unfold itemFromPath at h
  rcases hl : loadByName userId (pathToName pathId) st with _ | it2
  · rw [hl] at h
    cases h
  · rw [hl] at h
    cases h
    exact loadByName_owner _ _ _ _ hl

/-- C1: path resolution in the api item routes is tenant-scoped: for the
caller B, every resolved item (directly, via GET item, via GET content, or
via children) is owned by B, so an item of a different tenant A is never
returned, names notwithstanding. -/
theorem C1_tenant_isolation (A B : Nat) (hAB : A ≠ B) :
    (∀ (st : ServerState) (pathId : String) (it : Item),
      itemFromPath B st pathId = Except.ok it → it.owner_id = B ∧ it.owner_id ≠ A) ∧
    (∀ (st : ServerState) (pathId : String) (it : Item),
      getItemHandler B st pathId = Except.ok it → it.owner_id = B ∧ it.owner_id ≠ A) ∧
    (∀ (st : ServerState) (pathId : String) (it : Item) (bytes : List Nat),
      getApiContentHandler B st pathId = Except.ok (it, bytes) →
        it.owner_id = B ∧ it.owner_id ≠ A) ∧
    (∀ (st : ServerState) (parent : String) (lim : Nat) (it : Item),
      it ∈ children B parent lim st → it.owner_id = B ∧ it.owner_id ≠ A) := by
  have key : ∀ (ownerId : Nat) (it : Item), it.owner_id = ownerId → ownerId = B →
      it.owner_id = B ∧ it.owner_id ≠ A := by
    intro ownerId it h1 h2
    subst h2
    exact ⟨h1, by rw [h1]; exact fun hAeq => hAB hAeq.symm⟩
  refine ⟨?_, ?_, ?_, ?_⟩
  · intro st pathId it h
    exact key B it (itemFromPath_owner B st pathId it h) rfl
  · intro st pathId it h
    unfold getItemHandler at h
    rcases hf : itemFromPath B st pathId with e | it2
    · rw [hf] at h; cases h
    · rw [hf] at h; cases h
      have := itemFromPath_owner B st pathId _ hf
      exact key B _ this rfl
  · intro st pathId it bytes h
    unfold getApiContentHandler at h
    rcases hf : itemFromPath B st pathId with e | it2
    · rw [hf] at h; cases h
    · rw [hf] at h; cases h
      have := itemFromPath_owner B st pathId _ hf
      exact key B _ this rfl
  · intro st parent lim it h
    unfold children at h
    have h2 := List.mem_of_mem_take h
    have h3 := (List.mem_filter.mp h2).2
    simp at h3
    exact key B it h3.1 rfl

/-- A concrete state with one item owned by tenant 2. -/
def stA : ServerState :=
  ⟨[⟨7, "note", 2, "text", [104, 105], 5, 5, none⟩], [], 8, 1⟩

/-- The item of stA. -/
def itemA : Item := ⟨7, "note", 2, "text", [104, 105], 5, 5, none⟩

theorem C1_tenant_isolation_witness :
    (1 : Nat) ≠ 2 ∧
    itemFromPath 2 stA "note" = Except.ok itemA ∧
    (itemA.owner_id = 2 ∧ itemA.owner_id ≠ 1) :=
  ⟨by decide, rfl, (C1_tenant_isolation 1 2 (by decide)).1 stA "note" itemA rfl⟩

/-- C8: the delta route ignores the :id path segment: for any two path ids
and the same tenant and query, the handler produces the same call to
change().delta, namely delta of ctx.owner.id and the query pagination. -/
theorem C8_delta_ignores_path_id {α : Type} (delta : Nat → ChangePagination → α)
    (p1 p2 : String) (ownerId : Nat) (query : List (String × String)) :
    deltaHandler delta p1 ownerId query = deltaHandler delta p2 ownerId query ∧
    deltaHandler delta p1 ownerId query = delta ownerId (requestDeltaPagination query) :=
  ⟨rfl, rfl⟩

/-- A concrete state with one item owned by tenant 1, for the web content
route. -/
def stWeb : ServerState :=
  ⟨[⟨7, "secret", 1, "text", [1, 2, 3], 5, 5, none⟩], [], 8, 1⟩

/-- The item of stWeb. -/
def itemWeb : Item := ⟨7, "secret", 1, "text", [1, 2, 3], 5, 5, none⟩

/-- C2 (code bug): the web content route performs no access-control call at
all — its event trace is empty for every input — and it returns the content
of an item to an actor who does not own it (here actor 2 receives the
content of item 7 owned by tenant 1). -/
theorem C2_web_content_returns_nonowned_without_check :
    (∀ (actorId : Nat) (st : ServerState) (itemId : Nat),
      (webContentHandler actorId st itemId).2 = []) ∧
    webContentHandler 2 stWeb 7 = (Except.ok (itemWeb, [1, 2, 3]), []) ∧
    itemWeb.owner_id ≠ 2 := by
  refine ⟨?_, rfl, by decide⟩
  intro actorId st itemId
  unfold webContentHandler
  rcases h : loadWithContent itemId st with _ | it <;> simp [h]

/-- C3: deleting path id 'root' (or 'root:/:') fails MethodNotAllowed in
any environment other than 'dev' (in particular production), succeeds in
'dev' by wiping exactly the calling tenant's items, and the root-wipe
branch is never taken for any other path id. -/
theorem C3_delete_root (acl : User → AclAction → AclTarget → Bool) (env : String)
    (owner : User) (st : ServerState) (pathId : String) :
    ((pathId = "root" ∨ pathId = "root:/:") →
      (env ≠ "dev" →
        deleteItemHandler acl env owner st pathId =
          (Except.error Err.MethodNotAllowed, st, [])) ∧
      (env = "dev" →
        deleteItemHandler acl env owner st pathId =
          (Except.ok (), deleteAll owner.id st, [Ev.DeletedAll owner.id]) ∧
        (∀ i : Item, i ∈ (deleteAll owner.id st).items ↔
          i ∈ st.items ∧ i.owner_id ≠ owner.id))) ∧
    (¬(pathId = "root" ∨ pathId = "root:/:") →
      ∀ o : Nat, Ev.DeletedAll o ∉ (deleteItemHandler acl env owner st pathId).2.2) := by
  constructor
  · intro hroot
    constructor
    · intro henv
      simp [deleteItemHandler, hroot, henv]
    · intro henv
      subst henv
      constructor
      · simp [deleteItemHandler, hroot]
      · intro i
        simp [deleteAll, List.mem_filter]
  · intro hnr o
    rcases hf : itemFromPath owner.id st pathId with e | item
    · cases e <;> simp [deleteItemHandler, hnr, hf]
    · by_cases hacl : acl owner AclAction.Delete (AclTarget.itemTarget item) = true
      · simp [deleteItemHandler, hnr, hf, checkIfAllowed, hacl]
      · rw [Bool.not_eq_true] at hacl
        simp [deleteItemHandler, hnr, hf, checkIfAllowed, hacl]

/-- An oracle that allows everything. -/
def aclAllowAll : User → AclAction → AclTarget → Bool := fun _ _ _ => true

/-- An oracle that denies everything. -/
def aclDenyAll : User → AclAction → AclTarget → Bool := fun _ _ _ => false

/-- The empty server state. -/
def stEmpty : ServerState := ⟨[], [], 0, 0⟩

theorem C3_delete_root_witness :
    (("root" : String) = "root" ∨ ("root" : String) = "root:/:") ∧
    ("prod" : String) ≠ "dev" ∧
    deleteItemHandler aclAllowAll "prod" ⟨1⟩ stA "root" =
      (Except.error Err.MethodNotAllowed, stA, []) :=
  ⟨Or.inl rfl, by decide,
    ((C3_delete_root aclAllowAll "prod" ⟨1⟩ stA "root").1 (Or.inl rfl)).1 (by decide)⟩

/-- C6: for a non-root path that does not resolve, the DELETE handler
swallows the NotFound and completes as a no-op with the state unchanged;
an error other than NotFound (here the ACL denial) is re-thrown with the
state unchanged. -/
theorem C6_delete_nonexistent_noop (acl : User → AclAction → AclTarget → Bool)
    (env : String) (owner : User) (st : ServerState) (pathId : String)
    (hnr : ¬(pathId = "root" ∨ pathId = "root:/:")) :
    (loadByName owner.id (pathToName pathId) st = none →
      deleteItemHandler acl env owner st pathId = (Except.ok (), st, [])) ∧
    (∀ item : Item, itemFromPath owner.id st pathId = Except.ok item →
      acl owner AclAction.Delete (AclTarget.itemTarget item) = false →
      deleteItemHandler acl env owner st pathId =
        (Except.error Err.PermissionDenied, st, [Ev.CheckedIfAllowed AclAction.Delete])) := by
  constructor
  · intro hln
    have hf : itemFromPath owner.id st pathId = Except.error Err.NotFound := by
      unfold itemFromPath
      rw [hln]
    simp [deleteItemHandler, hnr, hf]
  · intro item hf hacl
    simp [deleteItemHandler, hnr, hf, checkIfAllowed, hacl]

theorem C6_delete_nonexistent_noop_witness :
    ¬(("x" : String) = "root" ∨ ("x" : String) = "root:/:") ∧
    loadByName 1 (pathToName "x") stEmpty = none ∧
    deleteItemHandler aclAllowAll "prod" ⟨1⟩ stEmpty "x" = (Except.ok (), stEmpty, []) :=
  ⟨by decide, rfl,
    (C6_delete_nonexistent_noop aclAllowAll "prod" ⟨1⟩ stEmpty "x" (by decide)).1 rfl⟩

/-- C7: whenever the parsed body carries an uploaded temporary file, the
PUT content handler's trace contains its removal, on every exit path (the
read outcome, the ACL decision and the storage outcome are arbitrary). -/
theorem C7_put_removes_temp_file (acl : User → AclAction → AclTarget → Bool)
    (owner : User) (pathId : String) (query : List (String × String))
    (body : ParsedBody) (readResult : Except Err (List Nat)) (saveOk : Bool)
    (time : Nat) (st : ServerState) (p : String) (hp : body.file = some p) :
    Ev.RemovedTempFile p ∈
      (putItemContentHandler acl owner pathId query body readResult saveOk time st).2.2 := by
  simp [putItemContentHandler, hp]

theorem C7_put_removes_temp_file_witness :
    (⟨some "/tmp/upload"⟩ : ParsedBody).file = some "/tmp/upload" ∧
    Ev.RemovedTempFile "/tmp/upload" ∈
      (putItemContentHandler aclAllowAll ⟨1⟩ "n" [] ⟨some "/tmp/upload"⟩
        (Except.ok [1]) true 0 stEmpty).2.2 :=
  ⟨rfl, C7_put_removes_temp_file aclAllowAll ⟨1⟩ "n" [] ⟨some "/tmp/upload"⟩
    (Except.ok [1]) true 0 stEmpty "/tmp/upload" rfl⟩

/-- C5 counterexample: with the share_id query parameter present but empty
(JS truthiness makes it falsy), the PUT content handler performs no
access-control call yet saveFromRawContent runs: the trace is exactly one
save event and contains no check event. -/
theorem C5_share_param_empty_counterexample :
    lookupQuery [("share_id", "")] "share_id" = some "" ∧
    (putItemContentHandler aclDenyAll ⟨1⟩ "x" [("share_id", "")] ⟨none⟩ (Except.ok [])
        true 0 stEmpty).2.2 = [Ev.SavedFromRawContent "x"] ∧
    Ev.CheckedIfAllowed AclAction.Create ∉
      (putItemContentHandler aclDenyAll ⟨1⟩ "x" [("share_id", "")] ⟨none⟩ (Except.ok [])
        true 0 stEmpty).2.2 :=
  ⟨rfl, rfl, by decide⟩

lemma checked_head_precedes (tr rest : List Ev) (a : AclAction)
    (htr : tr = Ev.CheckedIfAllowed a :: rest) :
    ∀ (k : Nat) (n : String), tr[k]? = some (Ev.SavedFromRawContent n) →
      ∃ j, j < k ∧ tr[j]? = some (Ev.CheckedIfAllowed a) := by
  intro k n hk
  subst htr
  match k with
  | 0 => simp at hk
  | k + 1 => exact ⟨0, by omega, by simp⟩

lemma put_trace_shape (acl : User → AclAction → AclTarget → Bool) (owner : User)
    (pathId : String) (query : List (String × String)) (body : ParsedBody)
    (readResult : Except Err (List Nat)) (saveOk : Bool) (time : Nat)
    (st : ServerState) (sid : String)
    (hq : lookupQuery query "share_id" = some sid) (hsid : sid ≠ "") :
    (∀ n, Ev.SavedFromRawContent n ∉
      (putItemContentHandler acl owner pathId query body readResult saveOk time st).2.2) ∨
    ∃ rest, (putItemContentHandler acl owner pathId query body readResult saveOk time st).2.2 =
      Ev.CheckedIfAllowed AclAction.Create :: rest := by
  rcases hfile : body.file with _ | p
  · by_cases hacl : acl owner AclAction.Create (AclTarget.shareTarget sid) = true
    · cases saveOk
      · right
        exact ⟨[], by simp [putItemContentHandler, hfile, hq, hsid, checkIfAllowed, hacl]⟩
      · right
        exact ⟨[Ev.SavedFromRawContent (pathToName pathId)],
          by simp [putItemContentHandler, hfile, hq, hsid, checkIfAllowed, hacl]⟩
    · rw [Bool.not_eq_true] at hacl
      right
      exact ⟨[], by simp [putItemContentHandler, hfile, hq, hsid, checkIfAllowed, hacl]⟩
  · rcases hrr : readResult with e | buf
    · left
      intro n
      simp [putItemContentHandler, hfile, hq, hsid, hrr]
    · by_cases hacl : acl owner AclAction.Create (AclTarget.shareTarget sid) = true
      · cases saveOk
        · right
          exact ⟨[Ev.RemovedTempFile p],
            by simp [putItemContentHandler, hfile, hq, hsid, hrr, checkIfAllowed, hacl]⟩
        · right
          exact ⟨[Ev.SavedFromRawContent (pathToName pathId), Ev.RemovedTempFile p],
            by simp [putItemContentHandler, hfile, hq, hsid, hrr, checkIfAllowed, hacl]⟩
      · rw [Bool.not_eq_true] at hacl
        right
        exact ⟨[Ev.RemovedTempFile p],
          by simp [putItemContentHandler, hfile, hq, hsid, hrr, checkIfAllowed, hacl]⟩

lemma delete_trace_shape (acl : User → AclAction → AclTarget → Bool) (env : String)
    (owner : User) (st : ServerState) (pathId : String) :
    (deleteItemHandler acl env owner st pathId).2.2 = [] ∨
    (deleteItemHandler acl env owner st pathId).2.2 = [Ev.DeletedAll owner.id] ∨
    (deleteItemHandler acl env owner st pathId).2.2 =
      [Ev.CheckedIfAllowed AclAction.Delete] ∨
    ∃ iid, (deleteItemHandler acl env owner st pathId).2.2 =
      [Ev.CheckedIfAllowed AclAction.Delete, Ev.DeletedForUser iid] := by
  by_cases hroot : pathId = "root" ∨ pathId = "root:/:"
  · by_cases henv : env = "dev"
    · right; left
      simp [deleteItemHandler, hroot, henv]
    · left
      simp [deleteItemHandler, hroot, henv]
  · rcases hf : itemFromPath owner.id st pathId with e | item
    · cases e <;> (left; simp [deleteItemHandler, hroot, hf])
    · by_cases hacl : acl owner AclAction.Delete (AclTarget.itemTarget item) = true
      · right; right; right
        exact ⟨item.id, by simp [deleteItemHandler, hroot, hf, checkIfAllowed, hacl]⟩
      · rw [Bool.not_eq_true] at hacl
        right; right; left
        simp [deleteItemHandler, hroot, hf, checkIfAllowed, hacl]

/-- C5 (amended): in the DELETE route every deleteForUser call is preceded
by a Delete ACL check, and a delete denial leaves the state unchanged; in
the PUT content route, whenever the share_id query parameter is present
with a nonempty value, every saveFromRawContent call is preceded by a
Create ACL check on the share target, and a denial leaves the state
unchanged with no save performed. -/
theorem C5_acl_before_mutation_amended (acl : User → AclAction → AclTarget → Bool)
    (env : String) (owner : User) (st : ServerState) (pathId : String)
    (query : List (String × String)) (body : ParsedBody)
    (readResult : Except Err (List Nat)) (saveOk : Bool) (time : Nat) :
    (∀ (k : Nat) (i : Nat),
      ((deleteItemHandler acl env owner st pathId).2.2)[k]? =
        some (Ev.DeletedForUser i) →
      ∃ j, j < k ∧
        ((deleteItemHandler acl env owner st pathId).2.2)[j]? =
          some (Ev.CheckedIfAllowed AclAction.Delete)) ∧
    (¬(pathId = "root" ∨ pathId = "root:/:") →
      (∀ t, acl owner AclAction.Delete t = false) →
      (deleteItemHandler acl env owner st pathId).2.1 = st) ∧
    (∀ sid : String, lookupQuery query "share_id" = some sid → sid ≠ "" →
      ∀ (k : Nat) (n : String),
        ((putItemContentHandler acl owner pathId query body readResult saveOk time st).2.2)[k]? =
          some (Ev.SavedFromRawContent n) →
        ∃ j, j < k ∧
          ((putItemContentHandler acl owner pathId query body readResult saveOk time st).2.2)[j]? =
            some (Ev.CheckedIfAllowed AclAction.Create)) ∧
    (∀ sid : String, lookupQuery query "share_id" = some sid → sid ≠ "" →
      acl owner AclAction.Create (AclTarget.shareTarget sid) = false →
      (putItemContentHandler acl owner pathId query body readResult saveOk time st).2.1 = st ∧
      (∀ n : String, Ev.SavedFromRawContent n ∉
        (putItemContentHandler acl owner pathId query body readResult saveOk time st).2.2)) := by
  refine ⟨?_, ?_, ?_, ?_⟩
  · intro k i hk
    rcases delete_trace_shape acl env owner st pathId with h | h | h | ⟨iid, h⟩
    · rw [h] at hk
      simp at hk
    · rw [h] at hk
      match k, hk with
      | 0, hk => simp at hk
      | k + 1, hk => simp at hk
    · rw [h] at hk
      match k, hk with
      | 0, hk => simp at hk
      | k + 1, hk => simp at hk
    · rw [h] at hk ⊢
      match k, hk with
      | 0, hk => simp at hk
      | 1, hk => exact ⟨0, by omega, by simp⟩
      | k + 2, hk => simp at hk
  · intro hnr hdeny
    rcases hf : itemFromPath owner.id st pathId with e | item
    · cases e <;> simp [deleteItemHandler, hnr, hf]
    · have hd := hdeny (AclTarget.itemTarget item)
      simp [deleteItemHandler, hnr, hf, checkIfAllowed, hd]
  · intro sid hq hsid k n hk
    rcases put_trace_shape acl owner pathId query body readResult saveOk time st sid hq hsid
      with h | ⟨rest, h⟩
    · exact absurd (List.getElem?_mem hk) (h n)
    · exact checked_head_precedes _ rest AclAction.Create h k n hk
  · intro sid hq hsid hacl
    rcases hfile : body.file with _ | p
    · constructor
      · simp [putItemContentHandler, hfile, hq, hsid, checkIfAllowed, hacl]
      · intro n
        simp [putItemContentHandler, hfile, hq, hsid, checkIfAllowed, hacl]
    · rcases hrr : readResult with e | buf
      · constructor
        · simp [putItemContentHandler, hfile, hq, hsid, hrr]
        · intro n
          simp [putItemContentHandler, hfile, hq, hsid, hrr]
      · constructor
        · simp [putItemContentHandler, hfile, hq, hsid, hrr, checkIfAllowed, hacl]
        · intro n
          simp [putItemContentHandler, hfile, hq, hsid, hrr, checkIfAllowed, hacl]

theorem C5_acl_before_mutation_amended_witness :
    lookupQuery [("share_id", "s1")] "share_id" = some "s1" ∧
    ("s1" : String) ≠ "" ∧
    aclDenyAll ⟨1⟩ AclAction.Create (AclTarget.shareTarget "s1") = false ∧
    (putItemContentHandler aclDenyAll ⟨1⟩ "x" [("share_id", "s1")] ⟨none⟩ (Except.ok [])
        true 0 stEmpty).2.1 = stEmpty ∧
    Ev.SavedFromRawContent "x" ∉
      (putItemContentHandler aclDenyAll ⟨1⟩ "x" [("share_id", "s1")] ⟨none⟩ (Except.ok [])
        true 0 stEmpty).2.2 :=
  ⟨rfl, by decide, rfl,
    ((C5_acl_before_mutation_amended aclDenyAll "prod" ⟨1⟩ stEmpty "x"
      [("share_id", "s1")] ⟨none⟩ (Except.ok []) true 0).2.2.2 "s1" rfl (by decide) rfl).1,
    ((C5_acl_before_mutation_amended aclDenyAll "prod" ⟨1⟩ stEmpty "x"
      [("share_id", "s1")] ⟨none⟩ (Except.ok []) true 0).2.2.2 "s1" rfl (by decide) rfl).2 "x"⟩

/-! ### Lemmas for the idempotence of create_or_replace -/

lemma find?_append_none {α : Type} (p : α → Bool) (l1 l2 : List α)
    (h : l1.find? p = none) : (l1 ++ l2).find? p = l2.find? p := by
  induction l1 with
  | nil => simp
  | cons x xs ih =>
    rcases hx : p x with _ | _
    · rw [List.find?_cons_of_neg _ (by simp [hx])] at h
      rw [List.cons_append, List.find?_cons_of_neg _ (by simp [hx])]
      exact ih h
    · rw [List.find?_cons_of_pos _ hx] at h
      cases h

lemma filter_nil_of_find?_none {α : Type} (p : α → Bool) (l : List α)
    (h : l.find? p = none) : l.filter p = [] := by
  rw [List.filter_eq_nil]
  intro a ha
  have := List.find?_eq_none.mp h a ha
  simp [this]

lemma find?_map_update (l : List Item) (p : Item → Bool) (a a2 : Item)
    (hfind : l.find? p = some a)
    (hid : ∀ x ∈ l, x.id = a.id → x = a)
    (hp2 : p a2 = true) (hid2 : a2.id = a.id) :
    (l.map (fun j => if j.id == a.id then a2 else j)).find? p = some a2 := by
  induction l with
  | nil => cases hfind
  | cons x xs ih =>
    rcases hx : p x with _ | _
    · rw [List.find?_cons_of_neg _ (by simp [hx])] at hfind
      have hxne : (x.id == a.id) = false := by
        rcases hbeq : x.id == a.id with _ | _
        · rfl
        · have hxa : x = a := hid x (by simp) (by simpa using hbeq)
          have hpa := List.find?_some hfind
          rw [hxa, hpa] at hx
          cases hx
      simp only [List.map_cons]
      rw [show (if x.id == a.id then a2 else x) = x from by simp [hxne]]
      rw [List.find?_cons_of_neg _ (by simp [hx])]
      exact ih hfind (fun y hy hyid => hid y (by simp [hy]) hyid)
    · rw [List.find?_cons_of_pos _ hx] at hfind
      have hax : x = a := by injection hfind
      simp only [List.map_cons]
      rw [show (if x.id == a.id then a2 else x) = a2 from by rw [hax]; simp]
      rw [List.find?_cons_of_pos _ hp2]

lemma filter_single_of_unique (l : List Item) (p : Item → Bool) (a : Item)
    (hnd : l.Nodup) (ha : a ∈ l) (hpa : p a = true)
    (huniq : ∀ x ∈ l, p x = true → x = a) : l.filter p = [a] := by
  induction l with
  | nil => cases ha
  | cons x xs ih =>
    rcases List.nodup_cons.mp hnd with ⟨hxnot, hndxs⟩
    rcases List.mem_cons.mp ha with hax | haxs
    · rw [← hax] at hxnot ⊢
      rw [List.filter_cons_of_pos hpa]
      have : xs.filter p = [] := by
        rw [List.filter_eq_nil]
        intro y hy hpy
        have hya := huniq y (by simp [hy]) hpy
        rw [hya] at hy
        exact hxnot hy
      rw [this]
    · have hpx : p x = false := by
        rcases hpx : p x with _ | _
        · rfl
        · have hxa := huniq x (by simp) hpx
          rw [hxa] at hxnot
          exact absurd haxs hxnot
      rw [List.filter_cons_of_neg (by simp [hpx])]
      exact ih hndxs haxs (fun y hy hpy => huniq y (by simp [hy]) hpy)

lemma filter_map_update (l : List Item) (p : Item → Bool) (a a2 : Item)
    (hcount : l.filter p = [a])
    (hid : ∀ x ∈ l, x.id = a.id → x = a)
    (hp2 : p a2 = true) (hid2 : a2.id = a.id) :
    (l.map (fun j => if j.id == a.id then a2 else j)).filter p = [a2] := by
  induction l with
  | nil => simp at hcount
  | cons x xs ih =>
    rcases hpx : p x with _ | _
    · rw [List.filter_cons_of_neg (by simp [hpx])] at hcount
      have hxne : (x.id == a.id) = false := by
        rcases hbeq : x.id == a.id with _ | _
        · rfl
        · have hxa : x = a := hid x (by simp) (by simpa using hbeq)
          have hamem : a ∈ xs.filter p := by rw [hcount]; simp
          have hpa := (List.mem_filter.mp hamem).2
          rw [hxa, hpa] at hpx
          cases hpx
      simp only [List.map_cons]
      rw [show (if x.id == a.id then a2 else x) = x from by simp [hxne]]
      rw [List.filter_cons_of_neg (by simp [hpx])]
      exact ih hcount (fun y hy => hid y (by simp [hy]))
    · rw [List.filter_cons_of_pos hpx] at hcount
      rw [show ([a] : List Item) = a :: [] from rfl] at hcount
      injection hcount with hax hnil
      simp only [List.map_cons]
      rw [show (if x.id == a.id then a2 else x) = a2 from by rw [hax]; simp]
      rw [List.filter_cons_of_pos hp2]
      have : (xs.map (fun j => if j.id == a.id then a2 else j)).filter p = [] := by
        rw [List.filter_eq_nil]
        intro y hy
        rcases List.mem_map.mp hy with ⟨z, hz, rfl⟩
        rcases hbz : z.id == a.id with _ | _
        · have hpz := List.filter_eq_nil.mp hnil z hz
          simpa [hbz] using hpz
        · have hpz := List.filter_eq_nil.mp hnil z hz
          have hza : z = a := hid z (by simp [hz]) (by simpa using hbz)
          rw [hza] at hpz
          rw [hax] at hpx
          exact absurd hpx hpz
      rw [this]

lemma surviving_last (I : Nat) : ∀ (xs : List Change) (c1 c2 : Change),
    c1.item_id = I → c2.item_id = I →
    (survivingChanges (xs ++ [c1, c2])).filter (fun c => c.item_id == I) = [c2] := by
  intro xs
  induction xs with
  | nil =>
    intro c1 c2 h1 h2
    simp [survivingChanges, h1, h2]
  | cons x xs ih =>
    intro c1 c2 h1 h2
    show (survivingChanges (x :: (xs ++ [c1, c2]))).filter _ = [c2]
    rcases hany : ((xs ++ [c1, c2]).any (fun d => d.item_id == x.item_id)) with _ | _
    · have hxI : (x.item_id == I) = false := by
        rcases hxi : x.item_id == I with _ | _
        · rfl
        · exfalso
          have : (xs ++ [c1, c2]).any (fun d => d.item_id == x.item_id) = true := by
            refine List.any_eq_true.mpr ⟨c1, by simp, ?_⟩
            simp at hxi
            simp [h1, hxi]
          rw [this] at hany
          cases hany
      rw [survivingChanges, if_neg (by simp [hany])]
      rw [List.filter_cons_of_neg (by simp [hxI])]
      exact ih c1 c2 h1 h2
    · rw [survivingChanges, if_pos hany]
      exact ih c1 c2 h1 h2

lemma updItem_twice (a : Item) (buffer : List Nat) (opts : ItemSaveOption) (t1 t2 : Nat) :
    updItem (updItem a buffer opts t1) buffer opts t2 = updItem a buffer opts t2 := by
  obtain ⟨os⟩ := opts
  cases os <;> rfl

lemma save_replace_eq (owner : User) (name : String) (buffer : List Nat)
    (opts : ItemSaveOption) (time : Nat) (st : ServerState) (a : Item)
    (hf : st.items.find? (fun i => i.owner_id == owner.id && i.name == name) = some a) :
    saveFromRawContent owner name buffer opts time st =
      (updItem a buffer opts time,
        { st with
          items := st.items.map (fun j => if j.id == a.id then updItem a buffer opts time else j),
          changes := st.changes ++ [⟨st.nextChangeId, a.id, name, ChangeType.update, owner.id⟩],
          nextChangeId := st.nextChangeId + 1 }) := by
  unfold saveFromRawContent
  rw [hf]

lemma save_create_eq (owner : User) (name : String) (buffer : List Nat)
    (opts : ItemSaveOption) (time : Nat) (st : ServerState)
    (hf : st.items.find? (fun i => i.owner_id == owner.id && i.name == name) = none) :
    saveFromRawContent owner name buffer opts time st =
      (⟨st.nextId, name, owner.id, "", buffer, time, time, opts.shareId⟩,
        { st with
          items := st.items ++ [⟨st.nextId, name, owner.id, "", buffer, time, time, opts.shareId⟩],
          nextId := st.nextId + 1,
          changes := st.changes ++ [⟨st.nextChangeId, st.nextId, name, ChangeType.create, owner.id⟩],
          nextChangeId := st.nextChangeId + 1 }) := by
  unfold saveFromRawContent
  rw [hf]

/-- C4: create_or_replace is idempotent per (owner, path, bytes): from a
well-formed state, two calls with identical arguments produce the same
logical item (same id, exactly one matching item row in the final state),
the second call changes no item metadata beyond updated_time, and exactly
one Change for that item survives compaction — the final update record. -/
theorem C4_create_or_replace_idempotent (owner : User) (name : String)
    (buffer : List Nat) (opts : ItemSaveOption) (t1 t2 : Nat) (s0 : ServerState)
    (hnd : s0.items.Nodup)
    (hids : ∀ i ∈ s0.items, ∀ j ∈ s0.items, i.id = j.id → i = j)
    (hnames : ∀ i ∈ s0.items, ∀ j ∈ s0.items,
      i.owner_id = j.owner_id → i.name = j.name → i = j)
    (hfresh : ∀ i ∈ s0.items, i.id < s0.nextId) :
    ∀ r1 r2 : Item × ServerState,
      saveFromRawContent owner name buffer opts t1 s0 = r1 →
      saveFromRawContent owner name buffer opts t2 r1.2 = r2 →
      r2.1.id = r1.1.id ∧
      r2.2.items.filter (fun i => i.owner_id == owner.id && i.name == name) = [r2.1] ∧
      r2.2.items.map (fun i => { i with updated_time := 0 }) =
        r1.2.items.map (fun i => { i with updated_time := 0 }) ∧
      (survivingChanges r2.2.changes).filter (fun c => c.item_id == r1.1.id) =
        [⟨r1.2.nextChangeId, r1.1.id, name, ChangeType.update, owner.id⟩] := by
  intro r1 r2 h1 h2
  rcases hf : s0.items.find? (fun i => i.owner_id == owner.id && i.name == name)
    with _ | a
  · -- create, then replace of the fresh item
    rw [save_create_eq owner name buffer opts t1 s0 hf] at h1
    subst h1
    dsimp only at h2 ⊢
    have hidN : ∀ x ∈ s0.items ++
        [(⟨s0.nextId, name, owner.id, "", buffer, t1, t1, opts.shareId⟩ : Item)],
        x.id = s0.nextId → x = ⟨s0.nextId, name, owner.id, "", buffer, t1, t1, opts.shareId⟩ := by
      intro x hx hxid
      rcases List.mem_append.mp hx with hx0 | hx1
      · have := hfresh x hx0
        omega
      · simpa using hx1
    have hfind1 : (s0.items ++
        [(⟨s0.nextId, name, owner.id, "", buffer, t1, t1, opts.shareId⟩ : Item)]).find?
        (fun i => i.owner_id == owner.id && i.name == name) =
        some ⟨s0.nextId, name, owner.id, "", buffer, t1, t1, opts.shareId⟩ := by
      rw [find?_append_none _ _ _ hf]
      rw [List.find?_cons_of_pos _ (by simp)]
    rw [save_replace_eq owner name buffer opts t2 _ _ hfind1] at h2
    subst h2
    dsimp only
    refine ⟨rfl, ?_, ?_, ?_⟩
    · refine filter_map_update _ _
        (⟨s0.nextId, name, owner.id, "", buffer, t1, t1, opts.shareId⟩ : Item) _ ?_ hidN ?_ rfl
      · rw [List.filter_append, filter_nil_of_find?_none _ _ hf]
        simp
      · simp [updItem]
    · rw [List.map_map]
      apply List.map_congr_left
      intro x hx
      rcases List.mem_append.mp hx with hx0 | hx1
      · have hne : (x.id == s0.nextId) = false := by
          have := hfresh x hx0
          simp
          omega
        simp [Function.comp, hne]
      · have hx1' : x = ⟨s0.nextId, name, owner.id, "", buffer, t1, t1, opts.shareId⟩ := by
          simpa using hx1
      

        subst hx1'
        simp only [Function.comp]
        rw [show ((⟨s0.nextId, name, owner.id, "", buffer, t1, t1, opts.shareId⟩ : Item).id ==
          s0.nextId) = true from by simp]
        simp only [if_pos]
        obtain ⟨os⟩ := opts
        cases os <;> rfl
    · rw [List.append_assoc]
      exact surviving_last s0.nextId s0.changes _ _ rfl rfl
  · -- replace twice
    have hpa := List.find?_some hf
    simp at hpa
    have hamem := List.mem_of_find?_eq_some hf
    have hid0 : ∀ x ∈ s0.items, x.id = a.id → x = a :=
      fun x hx hxid => hids x hx a hamem hxid
    rw [save_replace_eq owner name buffer opts t1 s0 a hf] at h1
    subst h1
    dsimp only at h2 ⊢
    have hpA2 : ((updItem a buffer opts t1).owner_id == owner.id &&
        (updItem a buffer opts t1).name == name) = true := by
      simp [updItem, hpa.1, hpa.2]
    have hfind1 : (s0.items.map
        (fun j => if j.id == a.id then updItem a buffer opts t1 else j)).find?
        (fun i => i.owner_id == owner.id && i.name == name) =
        some (updItem a buffer opts t1) :=
      find?_map_update s0.items _ a (updItem a buffer opts t1) hf hid0 hpA2 rfl
    have hid1 : ∀ x ∈ s0.items.map
        (fun j => if j.id == a.id then updItem a buffer opts t1 else j),
        x.id = (updItem a buffer opts t1).id → x = updItem a buffer opts t1 := by
      intro x hx hxid
      rcases List.mem_map.mp hx with ⟨z, hz, rfl⟩
      by_cases hbz : (z.id == a.id) = true
      · rw [if_pos hbz]
      · exfalso
        rw [if_neg hbz] at hxid
        have hxid2 : z.id = a.id := by simpa [updItem] using hxid
        rw [hxid2] at hbz
        simp at hbz
    rw [save_replace_eq owner name buffer opts t2 _ _ hfind1] at h2
    subst h2
    dsimp only
    have hcount0 : s0.items.filter
        (fun i => i.owner_id == owner.id && i.name == name) = [a] := by
      apply filter_single_of_unique s0.items _ a hnd hamem (by simp [hpa.1, hpa.2])
      intro x hx hpx
      simp at hpx
      exact hnames x hx a hamem (by rw [hpx.1, hpa.1]) (by rw [hpx.2, hpa.2])
    have hcount1 : (s0.items.map
        (fun j => if j.id == a.id then updItem a buffer opts t1 else j)).filter
        (fun i => i.owner_id == owner.id && i.name == name) = [updItem a buffer opts t1] :=
      filter_map_update s0.items _ a (updItem a buffer opts t1) hcount0 hid0 hpA2 rfl
    refine ⟨rfl, ?_, ?_, ?_⟩
    · exact filter_map_update (s0.items.map
        (fun j => if j.id == a.id then updItem a buffer opts t1 else j)) _
        (updItem a buffer opts t1) (updItem (updItem a buffer opts t1) buffer opts t2)
        hcount1 hid1 (by simp [updItem, hpa.1, hpa.2]) rfl
    · rw [List.map_map]
      apply List.map_congr_left
      intro x hx
      rcases List.mem_map.mp hx with ⟨z, hz, rfl⟩
      by_cases hbz : (z.id == a.id) = true
      · simp only [Function.comp, if_pos hbz]
        rw [show (if ((updItem a buffer opts t1).id == (updItem a buffer opts t1).id) = true
          then updItem (updItem a buffer opts t1) buffer opts t2
          else updItem a buffer opts t1) = updItem (updItem a buffer opts t1) buffer opts t2
          from by simp]
        rw [updItem_twice]
        obtain ⟨os⟩ := opts
        cases os <;> rfl
      · simp only [Function.comp, if_neg hbz]
        rw [show (z.id == (updItem a buffer opts t1).id) = false from by
          revert hbz; simp [updItem]]
        simp
    · rw [List.append_assoc]
      exact surviving_last a.id s0.changes _ _ rfl rfl

/-- First call of the idempotence witness. -/
def saveW1 : Item × ServerState := saveFromRawContent ⟨1⟩ "n" [7] ⟨none⟩ 3 stEmpty

/-- Retried call of the idempotence witness. -/
def saveW2 : Item × ServerState := saveFromRawContent ⟨1⟩ "n" [7] ⟨none⟩ 9 saveW1.2

theorem C4_create_or_replace_idempotent_witness :
    stEmpty.items.Nodup ∧
    (saveW2.1.id = saveW1.1.id ∧
      saveW2.2.items.filter (fun i => i.owner_id == 1 && i.name == "n") = [saveW2.1] ∧
      saveW2.2.items.map (fun i => { i with updated_time := 0 }) =
        saveW1.2.items.map (fun i => { i with updated_time := 0 }) ∧
      (survivingChanges saveW2.2.changes).filter (fun c => c.item_id == saveW1.1.id) =
        [⟨saveW1.2.nextChangeId, saveW1.1.id, "n", ChangeType.update, 1⟩]) :=
  ⟨by simp [stEmpty],
    C4_create_or_replace_idempotent ⟨1⟩ "n" [7] ⟨none⟩ 3 9 stEmpty
      (by simp [stEmpty]) (by simp [stEmpty]) (by simp [stEmpty]) (by simp [stEmpty])
      saveW1 saveW2 rfl rfl⟩

end Joplin
